import Mathlib

/-!
Verification of the queuectl job queue (github.com/Trishvan/queuectl).

Shallow embedding of the core job lifecycle engine:
the SQLite-backed job store (internal/store), the worker failure/backoff
state machine (internal/worker/worker.go), the DLQ retry command and the
enqueue/config commands (cmd/).

Modelling conventions:
- The jobs table is a `List Job` in rowid (insertion) order; the `id`
  column is the primary key, so reachable stores have pairwise distinct ids.
- `time.Time` values are integers counting nanoseconds; `time.Second`
  is the constant 1000000000.
- Go `int` fields (`attempts`, `maxRetries`) are modelled as `Int`;
  no computation here approaches the 64-bit range.
- `float64` arithmetic in the backoff computation is modelled with exact
  rationals.  The Go expression `time.Duration(math.Pow(base, attempts))`
  converts the float to `int64`, truncating toward zero; `goTruncToInt`
  models exactly that conversion.  Every concrete value used in a theorem
  below is one on which float64 and exact rational evaluation agree.
- Each SQLite transaction (`FindAndLockJob` runs one) executes atomically
  with respect to the other store operations, so a concurrent execution is
  modelled as an arbitrary serialization of atomic store operations.
-/

/-- Job states, from `internal/store` (part_002): pending, processing,
completed, failed, dead. -/
inductive JobState where
  | pending
  | processing
  | completed
  | failed
  | dead
deriving DecidableEq

/-- The Job record of `internal/store` (part_002): id, command, state,
attempts, maxRetries, createdAt, updatedAt, nextRunAt. -/
structure Job where
  id : String
  command : String
  state : JobState
  attempts : Int
  maxRetries : Int
  createdAt : Int
  updatedAt : Int
  nextRunAt : Int
deriving DecidableEq

/-- Go `time.Second` in nanoseconds. -/
def timeSecond : Int := 1000000000

/-- Go conversion of a float64 to an integer type truncates toward zero;
this is the effect of `time.Duration(math.Pow(...))` in `handleFailure`. -/
def goTruncToInt (q : ℚ) : Int := if 0 ≤ q then ⌊q⌋ else ⌈q⌉

/-- Go `math.Pow(base, float64(e))` for an integer exponent, in exact
rational arithmetic. -/
def powGo (base : ℚ) (e : Int) : ℚ :=
  if 0 ≤ e then base ^ e.toNat else (base ^ (-e).toNat)⁻¹

/-- The backoff delay computed by `handleFailure` (worker.go line 85):
`time.Duration(math.Pow(w.Cfg.BackoffBase, float64(job.Attempts))) * time.Second`,
in nanoseconds. -/
def backoffDelay (base : ℚ) (attempts : Int) : Int :=
  goTruncToInt (powGo base attempts) * timeSecond

/-- The WHERE clause of the claim query in `FindAndLockJob`:
`state = 'pending' AND next_run_at <= now`. -/
def isEligible (now : Int) (j : Job) : Bool :=
  j.state == JobState.pending && decide (j.nextRunAt ≤ now)

/-- One step of the scan selecting the row with the smallest `created_at`,
keeping the earlier row on ties. -/
def pickOldestStep (acc : Option Job) (j : Job) : Option Job :=
  match acc with
  | none => some j
  | some a => if j.createdAt < a.createdAt then some j else some a

/-- Fold selecting the row with the smallest `created_at`, keeping the
earlier row on ties.  Models `ORDER BY created_at ASC LIMIT 1`. -/
def pickOldest (l : List Job) : Option Job :=
  l.foldl pickOldestStep none

/-- The SELECT of `FindAndLockJob`: the oldest pending row with
`next_run_at <= now`, or none (`sql.ErrNoRows`). -/
def findEligible (now : Int) (s : List Job) : Option Job :=
  pickOldest (s.filter (isEligible now))

/-- The UPDATE of `FindAndLockJob`:
`UPDATE jobs SET state = ?, updated_at = ?, attempts = ? WHERE id = ?`,
applied to a single row. -/
def lockUpdate (locked : Job) (x : Job) : Job :=
  if x.id == locked.id then
    { x with state := locked.state, updatedAt := locked.updatedAt,
             attempts := locked.attempts }
  else x

/-- `FindAndLockJob` (go.mod appendix, store.go lines 91-130): inside one
transaction, select the oldest eligible pending row; if none, return the
none sentinel and leave the table unchanged; otherwise set its state to
processing, refresh updatedAt, increment attempts, persist, and return the
updated job. -/
def FindAndLockJob (now : Int) (s : List Job) : Option Job × List Job :=
  match findEligible now s with
  | none => (none, s)
  | some jrow =>
      let locked := { jrow with state := JobState.processing,
                                updatedAt := now,
                                attempts := jrow.attempts + 1 }
      (some locked, s.map (lockUpdate locked))

/-- `UpdateJob`: refresh updatedAt, then
`UPDATE jobs SET state = ?, attempts = ?, updated_at = ?, next_run_at = ? WHERE id = ?`. -/
def UpdateJob (now : Int) (job : Job) (s : List Job) : List Job :=
  s.map fun x =>
    if x.id == job.id then
      { x with state := job.state, attempts := job.attempts,
               updatedAt := now, nextRunAt := job.nextRunAt }
    else x

/-- `Enqueue`: `INSERT INTO jobs ... VALUES (...)`.  The id column is the
primary key, so the insert fails (and changes nothing) when the id is
already present; otherwise the row is appended. -/
def Enqueue (job : Job) (s : List Job) : Option String × List Job :=
  if s.any fun x => x.id == job.id then
    (some "UNIQUE constraint failed: jobs.id", s)
  else
    (none, s ++ [job])

/-- `GetJob`: `SELECT ... FROM jobs WHERE id = ?`. -/
def GetJob (id : String) (s : List Job) : Option Job :=
  s.find? fun x => x.id == id

/-- `ListJobsByState`: `SELECT ... WHERE state = ? ORDER BY created_at ASC`.
The scan does not read `next_run_at`, so listed rows carry the zero value
in that field. -/
def ListJobsByState (st : JobState) (s : List Job) : List Job :=
  ((s.filter fun j => j.state == st).mergeSort
      fun a b => decide (a.createdAt ≤ b.createdAt)).map
    fun j => { j with nextRunAt := 0 }

/-- The fields of the JSON job spec read by `NewJobFromSpec`
(part_002): optional id, command.  A key absent from the JSON leaves the
Go zero value, the empty string. -/
structure JobSpec where
  id : String
  command : String
deriving DecidableEq

/-- `NewJobFromSpec` (part_002 lines 32-58): unmarshal the spec (`none`
models a JSON parse failure), generate an id when the spec has none, and
build a pending job with attempts 0 and all three timestamps equal to now.
No field of the spec other than parseability is validated. -/
def NewJobFromSpec (parsed : Option JobSpec) (generatedId : String)
    (defaultMaxRetries : Int) (now : Int) : Option Job :=
  match parsed with
  | none => none
  | some p =>
      let jobID := if p.id == "" then generatedId else p.id
      some { id := jobID
             command := p.command
             state := JobState.pending
             attempts := 0
             maxRetries := defaultMaxRetries
             createdAt := now
             updatedAt := now
             nextRunAt := now }

/-- The enqueue command (cmd/enqueue.go lines 10-28): build the job from
the spec with the configured default maxRetries, then insert it; either
error aborts with the store untouched by this command. -/
def enqueueCmd (parsed : Option JobSpec) (generatedId : String)
    (cfgMaxRetries : Int) (now : Int) (s : List Job) :
    Option String × List Job :=
  match NewJobFromSpec parsed generatedId cfgMaxRetries now with
  | none => (some "invalid job spec", s)
  | some job =>
      match Enqueue job s with
      | (some e, s2) => (some ("failed to enqueue job: " ++ e), s2)
      | (none, s2) => (none, s2)

/-- `handleFailure` (worker.go lines 80-95): at or past maxRetries the job
moves to dead; otherwise it is marked failed in memory, given
`nextRunAt = now + time.Duration(math.Pow(base, attempts)) * time.Second`,
and set back to pending before being persisted. -/
def handleFailure (backoffBase : ℚ) (now : Int) (job : Job) : Job :=
  if job.maxRetries ≤ job.attempts then
    { job with state := JobState.dead }
  else
    let j1 := { job with state := JobState.failed }
    let j2 := { j1 with nextRunAt := now + backoffDelay backoffBase j1.attempts }
    { j2 with state := JobState.pending }

/-- The DLQ retry command (part_001 lines 103-130): look the job up; refuse
unless it is dead; otherwise reset it to pending with attempts 0 and
nextRunAt now, and persist through `UpdateJob`. -/
def dlqRetry (now : Int) (jobID : String) (s : List Job) :
    Option String × List Job :=
  match GetJob jobID s with
  | none => (some "failed to get job", s)
  | some job =>
      if job.state != JobState.dead then
        (some "job is not in the DLQ", s)
      else
        (none,
          UpdateJob now
            { job with state := JobState.pending, attempts := 0,
                       nextRunAt := now }
            s)

/-- The configuration record (internal/config): max_retries and
backoff_base. -/
structure Config where
  maxRetries : Int
  backoffBase : ℚ
deriving DecidableEq

/-- The `config set backoff-base` branch of `configSetCmd`
(cmd, config command lines 43-75): `strconv.ParseFloat` (`none` models a
parse failure), then the value is stored and saved; no range or
finiteness check is performed. -/
def configSetBackoffBase (parsed : Option ℚ) (cfg : Config) :
    Option String × Config :=
  match parsed with
  | none => (some "invalid value for backoff-base", cfg)
  | some base => (none, { cfg with backoffBase := base })

/-- K claim calls against one store, all issued at the same instant `now`;
by the serializability of the claim transaction this is the model of K
concurrent `Claim()` callers.  Returns the jobs handed out and the final
store. -/
def runClaims (now : Int) : Nat → List Job → List Job × List Job
  | 0, s => ([], s)
  | k + 1, s =>
      match FindAndLockJob now s with
      | (none, s1) =>
          let r := runClaims now k s1
          (r.1, r.2)
      | (some j, s1) =>
          let r := runClaims now k s1
          (j :: r.1, r.2)

/-- One transition of the whole system: an enqueue command, a claim, a
worker completion or failure update on a processing job it holds, or an
operator DLQ retry.  `base` is the configured backoffBase. -/
inductive QueueStep (base : ℚ) : List Job → List Job → Prop where
  | enqueue (p : JobSpec) (generatedId : String) (maxR now : Int)
      (j : Job) (s s2 : List Job) :
      NewJobFromSpec (some p) generatedId maxR now = some j →
      Enqueue j s = (none, s2) → QueueStep base s s2
  | claim (now : Int) (s : List Job) :
      QueueStep base s (FindAndLockJob now s).2
  | complete (j : Job) (now : Int) (s : List Job) :
      j ∈ s → j.state = JobState.processing →
      QueueStep base s (UpdateJob now { j with state := JobState.completed } s)
  | fail (j : Job) (now now2 : Int) (s : List Job) :
      j ∈ s → j.state = JobState.processing →
      QueueStep base s (UpdateJob now2 (handleFailure base now j) s)
  | retry (jobID : String) (now : Int) (s s2 : List Job) :
      dlqRetry now jobID s = (none, s2) → QueueStep base s s2

/-- Store states reachable from the empty table. -/
def QueueReachable (base : ℚ) (s : List Job) : Prop :=
  Relation.ReflTransGen (QueueStep base) [] s

def wJobDead : Job :=
  { id := "d", command := "c", state := JobState.processing, attempts := 3,
    maxRetries := 3, createdAt := 0, updatedAt := 0, nextRunAt := 0 }

def wJobRetry : Job :=
  { id := "r", command := "c", state := JobState.processing, attempts := 1,
    maxRetries := 3, createdAt := 0, updatedAt := 0, nextRunAt := 0 }

def cexJob : Job :=
  { id := "x", command := "c", state := JobState.processing, attempts := 1,
    maxRetries := 3, createdAt := 0, updatedAt := 0, nextRunAt := 0 }

def wPend : Job :=
  { id := "p1", command := "c", state := JobState.pending, attempts := 0,
    maxRetries := 3, createdAt := 1, updatedAt := 1, nextRunAt := 1 }

def wPendLocked : Job :=
  { wPend with state := JobState.processing, updatedAt := 10, attempts := 1 }

def wFut : Job :=
  { id := "f1", command := "c", state := JobState.pending, attempts := 0,
    maxRetries := 3, createdAt := 1, updatedAt := 1, nextRunAt := 99 }

def wJob1 : Job :=
  { id := "a", command := "c", state := JobState.pending, attempts := 0,
    maxRetries := 3, createdAt := 1, updatedAt := 1, nextRunAt := 0 }

def wJob2 : Job :=
  { id := "b", command := "c", state := JobState.pending, attempts := 0,
    maxRetries := 3, createdAt := 2, updatedAt := 2, nextRunAt := 0 }

def wDead : Job :=
  { id := "dd", command := "c", state := JobState.dead, attempts := 3,
    maxRetries := 3, createdAt := 0, updatedAt := 4, nextRunAt := 2 }

def wComp : Job :=
  { id := "cc", command := "c", state := JobState.completed, attempts := 1,
    maxRetries := 3, createdAt := 0, updatedAt := 4, nextRunAt := 2 }

def defaultConfig : Config := { maxRetries := 3, backoffBase := 2 }

/-- Per-job inductive invariant: for jobs created with a positive
maxRetries, a pending job still has a claim left, and any non-dead job
has attempts at most maxRetries. -/
def JobInv (j : Job) : Prop :=
  1 ≤ j.maxRetries →
    (j.state = JobState.pending → j.attempts < j.maxRetries) ∧
    (j.state ≠ JobState.dead → j.attempts ≤ j.maxRetries)

/-- Store invariant: ids are pairwise distinct (the primary key), every
job satisfies `JobInv`, and no persisted job is in the failed state. -/
def StoreInv (s : List Job) : Prop :=
  (s.map Job.id).Nodup ∧ (∀ j ∈ s, JobInv j) ∧
    ∀ j ∈ s, j.state ≠ JobState.failed

def c5job : Job :=
  { id := "z", command := "c", state := JobState.pending, attempts := 0,
    maxRetries := 0, createdAt := 5, updatedAt := 5, nextRunAt := 5 }

def c5jobLocked : Job :=
  { c5job with state := JobState.processing, updatedAt := 5, attempts := 1 }

def w10 : Job :=
  { id := "w", command := "c", state := JobState.pending, attempts := 0,
    maxRetries := 1, createdAt := 5, updatedAt := 5, nextRunAt := 5 }

def w10locked : Job :=
  { w10 with state := JobState.processing, updatedAt := 6, attempts := 1 }

def w10dead : Job :=
  { w10locked with state := JobState.dead, updatedAt := 7 }

/-! ### Basic lemmas about the backoff computation -/

lemma powGo_ofNonneg (base : ℚ) (e : Int) (h : 0 ≤ e) :
    powGo base e = base ^ e.toNat := by
  simp [powGo, h]

lemma goTruncToInt_ofNonneg (q : ℚ) (h : 0 ≤ q) : goTruncToInt q = ⌊q⌋ := by
  simp [goTruncToInt, h]

lemma one_le_powGo (base : ℚ) (e : Int) (hb : 1 ≤ base) (he : 0 ≤ e) :
    1 ≤ powGo base e := by
  rw [powGo_ofNonneg base e he]
  exact one_le_pow₀ hb

lemma handleFailure_eq (base : ℚ) (now : Int) (j : Job) :
    handleFailure base now j =
      if j.maxRetries ≤ j.attempts then { j with state := JobState.dead }
      else { j with state := JobState.pending,
                    nextRunAt := now + backoffDelay base j.attempts } := by
  unfold handleFailure
  split <;> rfl

lemma powGo_one_base (e : Int) : powGo 1 e = 1 := by
  rw [powGo]; split <;> simp

/-! ### Claim C3 -/

/-- Claim C3 (amended): on a failure, a job at or past maxRetries moves to
dead; otherwise it moves back to pending with
nextRunAt = now + T seconds where T is backoffBase ^ attempts truncated
toward zero to a whole number of seconds (the effect of the
float64-to-Duration conversion), not the exact real value. -/
theorem handleFailure_spec (base : ℚ) (now : Int) (j : Job) :
    (j.maxRetries ≤ j.attempts →
      handleFailure base now j = { j with state := JobState.dead }) ∧
    (j.attempts < j.maxRetries →
      handleFailure base now j =
        { j with state := JobState.pending,
                 nextRunAt :=
                   now + goTruncToInt (powGo base j.attempts) * timeSecond }) := by
  constructor
  · intro h
    rw [handleFailure_eq, if_pos h]
  · intro h
    rw [handleFailure_eq, if_neg (not_le.mpr h)]
    rfl

/-- Witness for C3 at concrete inputs: a job at maxRetries goes dead, a job
below maxRetries is rescheduled with the truncated backoff. -/
theorem handleFailure_spec_witness :
    handleFailure 2 7 wJobDead = { wJobDead with state := JobState.dead } ∧
    handleFailure 2 7 wJobRetry =
      { wJobRetry with
          state := JobState.pending,
          nextRunAt := 7 + goTruncToInt (powGo 2 wJobRetry.attempts) * timeSecond } :=
  ⟨(handleFailure_spec 2 7 wJobDead).1 (by decide),
   (handleFailure_spec 2 7 wJobRetry).2 (by decide)⟩

lemma powGo_three_halves_one : powGo (3 / 2) 1 = 3 / 2 := by
  rw [powGo_ofNonneg _ _ (by norm_num)]
  show ((3:ℚ) / 2) ^ (1 : ℕ) = 3 / 2
  norm_num

lemma handleFailure_three_halves_cexJob :
    (handleFailure (3 / 2) 0 cexJob).nextRunAt = 1000000000 := by
  rw [handleFailure_eq, if_neg (by decide)]
  show (0 : Int) + backoffDelay (3 / 2) cexJob.attempts = 1000000000
  rw [show cexJob.attempts = 1 from rfl, backoffDelay, powGo_three_halves_one,
    goTruncToInt_ofNonneg _ (by norm_num), timeSecond]
  norm_num

/-- Claim C3 counterexample: with backoffBase = 3/2, now = 0 and one
attempt, the code schedules the retry exactly one second later (the float
value 1.5 is truncated by the Duration conversion), while the exact
formula of the claim gives 1.5 seconds; the two disagree. -/
theorem handleFailure_exact_formula_cex :
    (handleFailure (3 / 2) 0 cexJob).nextRunAt = 1000000000 ∧
    ((handleFailure (3 / 2) 0 cexJob).nextRunAt : ℚ) ≠
      (0 : ℚ) + powGo (3 / 2) cexJob.attempts * (timeSecond : ℚ) := by
  refine ⟨handleFailure_three_halves_cexJob, ?_⟩
  rw [handleFailure_three_halves_cexJob,
    show cexJob.attempts = 1 from rfl, powGo_three_halves_one, timeSecond]
  push_cast
  norm_num

/-! ### Claim C4 -/

/-- Claim C4 (amended): the computed backoff delay is monotone
non-decreasing in the attempt count for backoffBase >= 1 (the truncation
to whole seconds can make consecutive delays equal, so the increase is not
strict); the untruncated value backoffBase ^ attempts is strictly
increasing for backoffBase > 1; for backoffBase = 1 the delay is the
constant one second for every attempt count. -/
theorem backoffDelay_monotone (base : ℚ) (a1 a2 : Int) :
    (1 ≤ base → 0 ≤ a1 → a1 ≤ a2 → backoffDelay base a1 ≤ backoffDelay base a2) ∧
    (1 < base → 0 ≤ a1 → a1 < a2 → powGo base a1 < powGo base a2) ∧
    (base = 1 → backoffDelay base a1 = timeSecond) := by
  refine ⟨?_, ?_, ?_⟩
  · intro hb h1 h12
    have h2 : (0 : Int) ≤ a2 := le_trans h1 h12
    have p1 : (1 : ℚ) ≤ powGo base a1 := one_le_powGo _ _ hb h1
    have p2 : (1 : ℚ) ≤ powGo base a2 := one_le_powGo _ _ hb h2
    rw [backoffDelay, backoffDelay]
    apply mul_le_mul_of_nonneg_right _ (by rw [timeSecond]; norm_num)
    rw [goTruncToInt_ofNonneg _ (le_trans zero_le_one p1),
      goTruncToInt_ofNonneg _ (le_trans zero_le_one p2)]
    apply Int.floor_le_floor
    rw [powGo_ofNonneg _ _ h1, powGo_ofNonneg _ _ h2]
    exact pow_le_pow_right₀ hb (by omega)
  · intro hb h1 h12
    rw [powGo_ofNonneg _ _ h1, powGo_ofNonneg _ _ (by omega)]
    exact pow_lt_pow_right₀ hb (by omega)
  · intro hb
    subst hb
    rw [backoffDelay, powGo_one_base, goTruncToInt_ofNonneg _ (by norm_num)]
    simp

/-- Witness for C4 at concrete inputs, with base 2 and base 1. -/
theorem backoffDelay_monotone_witness :
    backoffDelay 2 1 ≤ backoffDelay 2 3 ∧
    powGo 2 1 < powGo 2 3 ∧
    backoffDelay 1 5 = timeSecond :=
  ⟨(backoffDelay_monotone 2 1 3).1 (by decide) (by decide) (by decide),
   (backoffDelay_monotone 2 1 3).2.1 (by decide) (by decide) (by decide),
   (backoffDelay_monotone 1 5 0).2.2 rfl⟩

/-- Claim C4 counterexample: backoffBase = 11/10 is greater than 1 and the
attempt counts 1 < 2 both lie below maxRetries = 3, yet the computed
delays are equal (both truncate to one second), so the delay is not
strictly increasing. -/
theorem backoffDelay_strict_increase_cex :
    (1 : ℚ) < 11 / 10 ∧ (1 : Int) < 2 ∧ (1 : Int) < 3 ∧ (2 : Int) < 3 ∧
    backoffDelay (11 / 10) 1 = backoffDelay (11 / 10) 2 := by
  refine ⟨by norm_num, by decide, by decide, by decide, ?_⟩
  have h1 : powGo (11 / 10) 1 = 11 / 10 := by
    rw [powGo_ofNonneg _ _ (by norm_num)]
    show ((11:ℚ) / 10) ^ (1 : ℕ) = 11 / 10
    norm_num
  have h2 : powGo (11 / 10) 2 = 121 / 100 := by
    rw [powGo_ofNonneg _ _ (by norm_num)]
    show ((11:ℚ) / 10) ^ (2 : ℕ) = 121 / 100
    norm_num
  rw [backoffDelay, backoffDelay, h1, h2,
    goTruncToInt_ofNonneg _ (by norm_num), goTruncToInt_ofNonneg _ (by norm_num)]
  norm_num

/-! ### Lemmas about the claim query (SELECT ... ORDER BY created_at ASC LIMIT 1) -/

lemma pickOldest_aux (l : List Job) (a : Job) :
    ∃ b, l.foldl pickOldestStep (some a) = some b ∧ (b = a ∨ b ∈ l) ∧
      b.createdAt ≤ a.createdAt ∧ ∀ x ∈ l, b.createdAt ≤ x.createdAt := by
  induction l generalizing a with
  | nil => exact ⟨a, rfl, Or.inl rfl, le_refl _, by simp⟩
  | cons c tl ih =>
    rw [List.foldl_cons]
    by_cases h : c.createdAt < a.createdAt
    · have hstep : pickOldestStep (some a) c = some c := by
        simp [pickOldestStep, h]
      rw [hstep]
      obtain ⟨b, hb, hmem, hle, hall⟩ := ih c
      refine ⟨b, hb, ?_, le_trans hle (le_of_lt h), ?_⟩
      · rcases hmem with rfl | hm
        · exact Or.inr (List.mem_cons_self _ _)
        · exact Or.inr (List.mem_cons_of_mem _ hm)
      · intro x hx
        rcases List.mem_cons.mp hx with rfl | hx2
        · exact hle
        · exact hall x hx2
    · have hstep : pickOldestStep (some a) c = some a := by
        simp [pickOldestStep, h]
      rw [hstep]
      obtain ⟨b, hb, hmem, hle, hall⟩ := ih a
      refine ⟨b, hb, ?_, hle, ?_⟩
      · rcases hmem with rfl | hm
        · exact Or.inl rfl
        · exact Or.inr (List.mem_cons_of_mem _ hm)
      · intro x hx
        rcases List.mem_cons.mp hx with rfl | hx2
        · exact le_trans hle (not_lt.mp h)
        · exact hall x hx2

lemma pickOldest_some (l : List Job) (b : Job) (h : pickOldest l = some b) :
    b ∈ l ∧ ∀ x ∈ l, b.createdAt ≤ x.createdAt := by
  cases l with
  | nil => cases h
  | cons c tl =>
    rw [pickOldest, List.foldl_cons] at h
    have hstep : pickOldestStep none c = some c := rfl
    rw [hstep] at h
    obtain ⟨b2, hb2, hmem, hle, hall⟩ := pickOldest_aux tl c
    rw [hb2] at h
    injection h with h
    subst h
    constructor
    · rcases hmem with rfl | hm
      · exact List.mem_cons_self _ _
      · exact List.mem_cons_of_mem _ hm
    · intro x hx
      rcases List.mem_cons.mp hx with rfl | hx2
      · exact hle
      · exact hall x hx2

lemma pickOldest_none (l : List Job) : pickOldest l = none ↔ l = [] := by
  constructor
  · intro h
    cases l with
    | nil => rfl
    | cons c tl =>
      rw [pickOldest, List.foldl_cons] at h
      have hstep : pickOldestStep none c = some c := rfl
      rw [hstep] at h
      obtain ⟨b2, hb2, _, _, _⟩ := pickOldest_aux tl c
      rw [hb2] at h
      cases h
  · intro h
    subst h
    rfl

lemma isEligible_iff (now : Int) (j : Job) :
    isEligible now j = true ↔ j.state = JobState.pending ∧ j.nextRunAt ≤ now := by
  simp [isEligible]

lemma findEligible_some (now : Int) (s : List Job) (j : Job)
    (h : findEligible now s = some j) :
    j ∈ s ∧ isEligible now j = true ∧
      ∀ x ∈ s, isEligible now x = true → j.createdAt ≤ x.createdAt := by
  rw [findEligible] at h
  obtain ⟨hmem, hall⟩ := pickOldest_some _ _ h
  have hj := List.mem_filter.mp hmem
  exact ⟨hj.1, hj.2,
    fun x hx hex => hall x (List.mem_filter.mpr ⟨hx, hex⟩)⟩

lemma findEligible_none (now : Int) (s : List Job) :
    findEligible now s = none ↔ s.filter (isEligible now) = [] := by
  rw [findEligible, pickOldest_none]

/-! ### Lemmas about FindAndLockJob -/

lemma FindAndLockJob_some_char (now : Int) (s : List Job) (j : Job)
    (s2 : List Job) (h : FindAndLockJob now s = (some j, s2)) :
    ∃ jrow, findEligible now s = some jrow ∧
      j = { jrow with state := JobState.processing, updatedAt := now,
                      attempts := jrow.attempts + 1 } ∧
      s2 = s.map (lockUpdate j) := by
  rw [FindAndLockJob] at h
  cases hf : findEligible now s with
  | none => rw [hf] at h; cases h
  | some jrow =>
    rw [hf] at h
    have hj := congrArg Prod.fst h
    simp only [Option.some.injEq] at hj
    have hs := congrArg Prod.snd h
    simp only at hs
    refine ⟨jrow, rfl, hj.symm, ?_⟩
    rw [← hs, hj]

lemma lockUpdate_id (locked x : Job) : (lockUpdate locked x).id = x.id := by
  unfold lockUpdate
  split <;> rfl

lemma lockUpdate_ids (locked : Job) (s : List Job) :
    (s.map (lockUpdate locked)).map Job.id = s.map Job.id := by
  rw [List.map_map]
  apply List.map_congr_left
  intro x _
  exact lockUpdate_id locked x

lemma lockUpdate_of_ne (locked x : Job) (hne : x.id ≠ locked.id) :
    lockUpdate locked x = x := by
  unfold lockUpdate
  rw [if_neg]
  simp [hne]

lemma mem_map_lockUpdate_of_ne (locked x : Job) (s : List Job)
    (hx : x ∈ s) (hne : x.id ≠ locked.id) : x ∈ s.map (lockUpdate locked) := by
  have h := lockUpdate_of_ne locked x hne
  rw [← h]
  exact List.mem_map_of_mem _ hx

lemma lockUpdate_locked (now : Int) (jrow : Job) :
    lockUpdate
      { jrow with state := JobState.processing, updatedAt := now,
                  attempts := jrow.attempts + 1 } jrow =
      { jrow with state := JobState.processing, updatedAt := now,
                  attempts := jrow.attempts + 1 } := by
  unfold lockUpdate
  rw [if_pos]
  show (jrow.id == jrow.id) = true
  exact beq_self_eq_true jrow.id

/-! ### Claim C2 -/

/-- Claim C2: a successful claim selects an eligible pending row of
minimal createdAt, returns it with state processing, attempts incremented
by exactly one and updatedAt refreshed, persists exactly that row (all
other rows are untouched and no row is added or removed); when no pending
row has nextRunAt at or before now, the claim returns the none sentinel
and the whole table is unchanged. -/
theorem FindAndLockJob_spec (now : Int) (s : List Job) :
    (∀ j s2, FindAndLockJob now s = (some j, s2) →
      ∃ jrow, jrow ∈ s ∧ jrow.state = JobState.pending ∧
        jrow.nextRunAt ≤ now ∧
        (∀ x ∈ s, x.state = JobState.pending → x.nextRunAt ≤ now →
          jrow.createdAt ≤ x.createdAt) ∧
        j = { jrow with state := JobState.processing, updatedAt := now,
                        attempts := jrow.attempts + 1 } ∧
        j ∈ s2 ∧ (∀ x ∈ s, x.id ≠ jrow.id → x ∈ s2) ∧
        s2.map Job.id = s.map Job.id) ∧
    ((∀ x ∈ s, x.state = JobState.pending → now < x.nextRunAt) →
      FindAndLockJob now s = (none, s)) := by
  constructor
  · intro j s2 h
    obtain ⟨jrow, hf, hj, hs2⟩ := FindAndLockJob_some_char now s j s2 h
    obtain ⟨hmem, helig, hmin⟩ := findEligible_some now s jrow hf
    obtain ⟨hpend, hready⟩ := (isEligible_iff now jrow).mp helig
    have hlock : lockUpdate j jrow = j := by
      rw [hj]
      exact lockUpdate_locked now jrow
    have hjid : j.id = jrow.id := by rw [hj]
    refine ⟨jrow, hmem, hpend, hready, ?_, hj, ?_, ?_, ?_⟩
    · intro x hx h1 h2
      exact hmin x hx ((isEligible_iff now x).mpr ⟨h1, h2⟩)
    · rw [hs2]
      have hm := List.mem_map_of_mem (lockUpdate j) hmem
      rw [hlock] at hm
      exact hm
    · intro x hx hne
      rw [hs2]
      apply mem_map_lockUpdate_of_ne j x s hx
      rw [hjid]
      exact hne
    · rw [hs2]
      exact lockUpdate_ids j s
  · intro h
    have hfil : s.filter (isEligible now) = [] := by
      rw [List.filter_eq_nil_iff]
      intro x hx hex
      obtain ⟨h1, h2⟩ := (isEligible_iff now x).mp hex
      exact absurd h2 (not_le.mpr (h x hx h1))
    rw [FindAndLockJob, (findEligible_none now s).mpr hfil]

/-- Witness for C2 at a concrete store: a one-row store with an eligible
job is claimed, and a store whose only pending job lies in the future
yields the none sentinel with the store unchanged. -/
theorem FindAndLockJob_spec_witness :
    (∃ jrow, jrow ∈ [wPend] ∧ jrow.state = JobState.pending ∧
      jrow.nextRunAt ≤ 10 ∧
      (∀ x ∈ [wPend], x.state = JobState.pending → x.nextRunAt ≤ 10 →
        jrow.createdAt ≤ x.createdAt) ∧
      wPendLocked = { jrow with state := JobState.processing, updatedAt := 10,
                                attempts := jrow.attempts + 1 } ∧
      wPendLocked ∈ [wPendLocked] ∧
      (∀ x ∈ [wPend], x.id ≠ jrow.id → x ∈ [wPendLocked]) ∧
      [wPendLocked].map Job.id = [wPend].map Job.id) ∧
    FindAndLockJob 10 [wFut] = (none, [wFut]) :=
  ⟨(FindAndLockJob_spec 10 [wPend]).1 wPendLocked [wPendLocked] (by decide),
   (FindAndLockJob_spec 10 [wFut]).2 (by decide)⟩

/-! ### Counting lemmas for concurrent claims (Claim C1) -/

lemma filter_map_lockUpdate (now : Int) (locked : Job) (s : List Job)
    (hl : locked.state = JobState.processing) :
    (s.map (lockUpdate locked)).filter (isEligible now) =
      s.filter (fun x => isEligible now x && !(x.id == locked.id)) := by
  induction s with
  | nil => rfl
  | cons c tl ih =>
    rw [List.map_cons, List.filter_cons, List.filter_cons, ih]
    cases hid : (c.id == locked.id) with
    | true =>
      have h1 : lockUpdate locked c =
          { c with state := locked.state, updatedAt := locked.updatedAt,
                   attempts := locked.attempts } := by
        unfold lockUpdate
        rw [if_pos hid]
      have h2 : isEligible now (lockUpdate locked c) = false := by
        rw [h1]
        simp [isEligible, hl]
      simp [h2]
    | false =>
      have h1 : lockUpdate locked c = c := by
        unfold lockUpdate
        rw [if_neg]
        simp only [hid]
        exact Bool.false_ne_true
      rw [h1]
      cases he : isEligible now c <;> simp [he]

lemma length_filter_not_id (l : List Job) (j : Job)
    (hN : (l.map Job.id).Nodup) (hmem : j ∈ l) :
    (l.filter (fun x => !(x.id == j.id))).length + 1 = l.length := by
  induction l with
  | nil => cases hmem
  | cons c tl ih =>
    rw [List.map_cons, List.nodup_cons] at hN
    obtain ⟨hc, hN2⟩ := hN
    rw [List.filter_cons]
    cases hid : (c.id == j.id) with
    | true =>
      have hcid : c.id = j.id := by simpa using hid
      have hall : tl.filter (fun x => !(x.id == j.id)) = tl := by
        apply List.filter_eq_self.mpr
        intro x hx
        have hxid : x.id ∈ tl.map Job.id := List.mem_map_of_mem _ hx
        simp only [Bool.not_eq_true', beq_eq_false_iff_ne]
        intro hxe
        apply hc
        rw [hcid, ← hxe]
        exact hxid
      simp [hall]
    | false =>
      have hcid : c.id ≠ j.id := by simpa using hid
      have hmem2 : j ∈ tl := by
        rcases List.mem_cons.mp hmem with rfl | h2
        · exact absurd rfl hcid
        · exact h2
      have := ih hN2 hmem2
      simp only [Bool.not_false, List.filter_cons]
      simp [List.length_cons]
      omega

lemma runClaims_zero (now : Int) (s : List Job) : runClaims now 0 s = ([], s) := rfl

lemma runClaims_succ_none (now : Int) (k : Nat) (s s1 : List Job)
    (h : FindAndLockJob now s = (none, s1)) :
    runClaims now (k + 1) s = runClaims now k s1 := by
  conv_lhs => unfold runClaims
  rw [h]

lemma runClaims_succ_some (now : Int) (k : Nat) (s s1 : List Job) (j : Job)
    (h : FindAndLockJob now s = (some j, s1)) :
    runClaims now (k + 1) s =
      (j :: (runClaims now k s1).1, (runClaims now k s1).2) := by
  conv_lhs => unfold runClaims
  rw [h]

lemma runClaims_strong (now : Int) (K : Nat) :
    ∀ s : List Job, (s.map Job.id).Nodup →
      ((runClaims now K s).1.map Job.id).Nodup ∧
      (runClaims now K s).1.length =
        min K ((s.filter (isEligible now)).length) ∧
      ∀ i ∈ (runClaims now K s).1.map Job.id,
        i ∈ (s.filter (isEligible now)).map Job.id := by
  induction K with
  | zero =>
    intro s hN
    rw [runClaims_zero]
    refine ⟨List.nodup_nil, by simp, by simp⟩
  | succ k ih =>
    intro s hN
    cases hOpt : findEligible now s with
    | none =>
      have hF : FindAndLockJob now s = (none, s) := by
        rw [FindAndLockJob, hOpt]
      have hfil : s.filter (isEligible now) = [] :=
        (findEligible_none now s).mp hOpt
      rw [runClaims_succ_none now k s s hF]
      obtain ⟨h1, h2, h3⟩ := ih s hN
      refine ⟨h1, ?_, h3⟩
      rw [h2, hfil]
      simp
    | some jrow =>
      have hF : FindAndLockJob now s =
          (some { jrow with state := JobState.processing, updatedAt := now,
                            attempts := jrow.attempts + 1 },
           s.map (lockUpdate
             { jrow with state := JobState.processing, updatedAt := now,
                         attempts := jrow.attempts + 1 })) := by
        rw [FindAndLockJob, hOpt]
      set locked : Job :=
        { jrow with state := JobState.processing, updatedAt := now,
                    attempts := jrow.attempts + 1 } with hlockdef
      set s2 := s.map (lockUpdate locked) with hs2def
      obtain ⟨hmem, helig, hmin⟩ := findEligible_some now s jrow hOpt
      have hids : s2.map Job.id = s.map Job.id := lockUpdate_ids locked s
      have hN2 : (s2.map Job.id).Nodup := by
        rw [hids]
        exact hN
      have hfil2 : s2.filter (isEligible now) =
          s.filter (fun x => isEligible now x && !(x.id == locked.id)) :=
        filter_map_lockUpdate now locked s rfl
      have hfil2b : s2.filter (isEligible now) =
          (s.filter (isEligible now)).filter (fun x => !(x.id == locked.id)) := by
        rw [hfil2, List.filter_filter]
        apply List.filter_congr
        intro x _
        exact Bool.and_comm _ _
      have hmemf : jrow ∈ s.filter (isEligible now) :=
        List.mem_filter.mpr ⟨hmem, helig⟩
      have hNf : ((s.filter (isEligible now)).map Job.id).Nodup :=
        List.Nodup.sublist ((List.filter_sublist s).map Job.id) hN
      have hlockid : locked.id = jrow.id := rfl
      have hlen2 : (s2.filter (isEligible now)).length + 1 =
          (s.filter (isEligible now)).length := by
        rw [hfil2b]
        simp only [hlockid]
        exact length_filter_not_id _ jrow hNf hmemf
      have hnotmem : locked.id ∉ (s2.filter (isEligible now)).map Job.id := by
        rw [hfil2b]
        intro hmemX
        obtain ⟨x, hx, hxid⟩ := List.mem_map.mp hmemX
        have hneq := (List.mem_filter.mp hx).2
        simp only [Bool.not_eq_true', beq_eq_false_iff_ne] at hneq
        exact hneq hxid
      have hsub2 : ∀ i ∈ (s2.filter (isEligible now)).map Job.id,
          i ∈ (s.filter (isEligible now)).map Job.id := by
        rw [hfil2b]
        intro i hi
        obtain ⟨x, hx, hxid⟩ := List.mem_map.mp hi
        exact hxid ▸ List.mem_map_of_mem _ (List.mem_of_mem_filter hx)
      rw [runClaims_succ_some now k s s2 locked hF]
      obtain ⟨ih1, ih2, ih3⟩ := ih s2 hN2
      refine ⟨?_, ?_, ?_⟩
      · rw [List.map_cons, List.nodup_cons]
        refine ⟨fun hmemL => hnotmem (ih3 _ hmemL), ih1⟩
      · rw [List.length_cons, ih2]
        omega
      · intro i hi
        rw [List.map_cons] at hi
        rcases List.mem_cons.mp hi with rfl | h2
        · rw [hlockid]
          exact List.mem_map_of_mem _ hmemf
        · exact hsub2 i (ih3 i h2)

/-! ### Claim C1 -/

/-- Claim C1: K claim calls against one store, serialized in any order by
the claim transaction (all at the same instant), hand out pairwise
distinct jobs, and exactly min(K, M) of them where M is the number of
eligible pending jobs; in particular no job is ever delivered to two
callers. -/
theorem FindAndLockJob_exclusive (now : Int) (K : Nat) (s : List Job)
    (hN : (s.map Job.id).Nodup) :
    ((runClaims now K s).1.map Job.id).Nodup ∧
    (runClaims now K s).1.length =
      min K ((s.filter (isEligible now)).length) := by
  obtain ⟨h1, h2, _⟩ := runClaims_strong now K s hN
  exact ⟨h1, h2⟩

/-- Witness for C1: three claim calls against a store holding two eligible
jobs hand out two distinct jobs, min(3, 2). -/
theorem FindAndLockJob_exclusive_witness :
    ((runClaims 10 3 [wJob1, wJob2]).1.map Job.id).Nodup ∧
    (runClaims 10 3 [wJob1, wJob2]).1.length =
      min 3 (([wJob1, wJob2].filter (isEligible 10)).length) :=
  FindAndLockJob_exclusive 10 3 [wJob1, wJob2] (by decide)

/-! ### Lemmas about GetJob and UpdateJob -/

lemma id_injective_of_nodup (s : List Job) (hN : (s.map Job.id).Nodup)
    (a b : Job) (ha : a ∈ s) (hb : b ∈ s) (hid : a.id = b.id) : a = b := by
  induction s with
  | nil => cases ha
  | cons c tl ih =>
    rw [List.map_cons, List.nodup_cons] at hN
    obtain ⟨hc, hN2⟩ := hN
    rcases List.mem_cons.mp ha with rfl | ha2
    · rcases List.mem_cons.mp hb with rfl | hb2
      · rfl
      · exact absurd (hid ▸ List.mem_map_of_mem Job.id hb2) hc
    · rcases List.mem_cons.mp hb with rfl | hb2
      · exact absurd (hid ▸ List.mem_map_of_mem Job.id ha2) hc
      · exact ih hN2 ha2 hb2

lemma GetJob_of_mem (s : List Job) (hN : (s.map Job.id).Nodup)
    (j : Job) (hmem : j ∈ s) : GetJob j.id s = some j := by
  unfold GetJob
  induction s with
  | nil => cases hmem
  | cons c tl ih =>
    rw [List.map_cons, List.nodup_cons] at hN
    obtain ⟨hc, hN2⟩ := hN
    cases hid : (c.id == j.id) with
    | true =>
      have hcj : c = j := by
        rcases List.mem_cons.mp hmem with rfl | h2
        · rfl
        · have hcid : c.id = j.id := by simpa using hid
          exact absurd (hcid ▸ List.mem_map_of_mem Job.id h2) hc
      simp [List.find?_cons, hid, hcj]
    | false =>
      have hmem2 : j ∈ tl := by
        rcases List.mem_cons.mp hmem with rfl | h2
        · simp at hid
        · exact h2
      simp only [List.find?_cons, hid]
      exact ih hN2 hmem2

lemma UpdateJob_ids (now : Int) (job : Job) (s : List Job) :
    (UpdateJob now job s).map Job.id = s.map Job.id := by
  rw [UpdateJob, List.map_map]
  apply List.map_congr_left
  intro x _
  show (if x.id == job.id then _ else x).id = x.id
  split <;> rfl

lemma mem_UpdateJob_of_ne (now : Int) (job x : Job) (s : List Job)
    (hx : x ∈ s) (hne : x.id ≠ job.id) : x ∈ UpdateJob now job s := by
  have hc : ¬ ((x.id == job.id) = true) := by simp [hne]
  have h : (if (x.id == job.id) = true then
      { x with state := job.state, attempts := job.attempts,
               updatedAt := now, nextRunAt := job.nextRunAt } else x) = x :=
    if_neg hc
  rw [UpdateJob]
  exact List.mem_map.mpr ⟨x, hx, h⟩

lemma mem_UpdateJob_target (now : Int) (job x : Job) (s : List Job)
    (hx : x ∈ s) (heq : x.id = job.id) :
    { x with state := job.state, attempts := job.attempts,
             updatedAt := now, nextRunAt := job.nextRunAt } ∈
      UpdateJob now job s := by
  have hc : (x.id == job.id) = true := by simp [heq]
  have h : (if (x.id == job.id) = true then
      { x with state := job.state, attempts := job.attempts,
               updatedAt := now, nextRunAt := job.nextRunAt } else x) =
      { x with state := job.state, attempts := job.attempts,
               updatedAt := now, nextRunAt := job.nextRunAt } :=
    if_pos hc
  rw [UpdateJob]
  exact List.mem_map.mpr ⟨x, hx, h⟩

/-! ### Claim C6 -/

/-- Claim C6: retrying a stored dead job resets it to pending with
attempts 0 and nextRunAt set to the current time, leaving id, command,
maxRetries and createdAt untouched and every other row unchanged; retrying
a stored job that is not dead returns an error and leaves the whole table
unchanged. -/
theorem dlqRetry_spec (now : Int) (s : List Job) (j : Job)
    (hN : (s.map Job.id).Nodup) (hmem : j ∈ s) :
    (j.state = JobState.dead →
      { j with state := JobState.pending, attempts := 0,
               updatedAt := now, nextRunAt := now } ∈ (dlqRetry now j.id s).2 ∧
      (dlqRetry now j.id s).1 = none ∧
      (∀ x ∈ s, x.id ≠ j.id → x ∈ (dlqRetry now j.id s).2) ∧
      (dlqRetry now j.id s).2.map Job.id = s.map Job.id) ∧
    (j.state ≠ JobState.dead →
      (dlqRetry now j.id s).1.isSome = true ∧ (dlqRetry now j.id s).2 = s) := by
  have hget : GetJob j.id s = some j := GetJob_of_mem s hN j hmem
  constructor
  · intro hdead
    have hcond : (j.state != JobState.dead) = false := by
      rw [hdead]
      rfl
    have hval : dlqRetry now j.id s =
        (none, UpdateJob now
          { j with state := JobState.pending, attempts := 0,
                   nextRunAt := now } s) := by
      rw [dlqRetry, hget]
      simp only [hcond]
      rfl
    rw [hval]
    refine ⟨?_, rfl, ?_, UpdateJob_ids _ _ _⟩
    · exact mem_UpdateJob_target now _ j s hmem rfl
    · intro x hx hne
      exact mem_UpdateJob_of_ne now _ x s hx hne
  · intro hne
    have hcond : (j.state != JobState.dead) = true := by
      simpa using hne
    have hval : dlqRetry now j.id s = (some "job is not in the DLQ", s) := by
      rw [dlqRetry, hget]
      simp only [hcond]
      rfl
    rw [hval]
    exact ⟨rfl, rfl⟩

/-- Witness for C6 at concrete stores: a dead job is reset, a completed
job is refused with the store unchanged. -/
theorem dlqRetry_spec_witness :
    ({ wDead with state := JobState.pending, attempts := 0,
                  updatedAt := 9, nextRunAt := 9 } ∈ (dlqRetry 9 wDead.id [wDead]).2 ∧
      (dlqRetry 9 wDead.id [wDead]).1 = none ∧
      (∀ x ∈ [wDead], x.id ≠ wDead.id → x ∈ (dlqRetry 9 wDead.id [wDead]).2) ∧
      (dlqRetry 9 wDead.id [wDead]).2.map Job.id = [wDead].map Job.id) ∧
    ((dlqRetry 9 wComp.id [wComp]).1.isSome = true ∧
      (dlqRetry 9 wComp.id [wComp]).2 = [wComp]) :=
  ⟨(dlqRetry_spec 9 [wDead] wDead (by decide) (by decide)).1 rfl,
   (dlqRetry_spec 9 [wComp] wComp (by decide) (by decide)).2 (by decide)⟩

/-! ### Claim C7 -/

lemma any_id_iff (s : List Job) (j : Job) :
    (s.any fun x => x.id == j.id) = true ↔ j.id ∈ s.map Job.id := by
  rw [List.any_eq_true]
  constructor
  · rintro ⟨x, hx, hxe⟩
    exact (by simpa using hxe : x.id = j.id) ▸ List.mem_map_of_mem Job.id hx
  · intro h
    obtain ⟨x, hx, hxe⟩ := List.mem_map.mp h
    exact ⟨x, hx, by simp [hxe]⟩

/-- Claim C7: enqueuing a job built from a spec with an id not yet in the
store appends exactly one new pending row with attempts 0 and
nextRunAt = createdAt = updatedAt; with an id already present the insert
fails and the table is unchanged (no partial insert). -/
theorem Enqueue_spec (p : JobSpec) (generatedId : String) (maxR now : Int)
    (s : List Job) (j : Job)
    (hj : NewJobFromSpec (some p) generatedId maxR now = some j) :
    (j.id ∉ s.map Job.id →
      Enqueue j s = (none, s ++ [j]) ∧ j.state = JobState.pending ∧
      j.attempts = 0 ∧ j.createdAt = now ∧ j.updatedAt = now ∧
      j.nextRunAt = now ∧ (s ++ [j]).length = s.length + 1) ∧
    (j.id ∈ s.map Job.id →
      (Enqueue j s).1.isSome = true ∧ (Enqueue j s).2 = s) := by
  rw [NewJobFromSpec] at hj
  simp only [Option.some.injEq] at hj
  constructor
  · intro hfresh
    have hcond : (s.any fun x => x.id == j.id) = false := by
      rw [← Bool.not_eq_true, any_id_iff]
      exact hfresh
    refine ⟨?_, ?_, ?_, ?_, ?_, ?_, by simp⟩
    · rw [Enqueue, hcond]
      rfl
    · rw [← hj]
    · rw [← hj]
    · rw [← hj]
    · rw [← hj]
    · rw [← hj]
  · intro hdup
    have hcond : (s.any fun x => x.id == j.id) = true := (any_id_iff s j).mpr hdup
    rw [Enqueue, hcond]
    exact ⟨rfl, rfl⟩

/-- Witness for C7 at concrete inputs: inserting the job built from the
spec into the empty store, then attempting to insert it again. -/
theorem Enqueue_spec_witness :
    (Enqueue wPend [] = (none, [] ++ [wPend]) ∧
      wPend.state = JobState.pending ∧ wPend.attempts = 0 ∧
      wPend.createdAt = 1 ∧ wPend.updatedAt = 1 ∧ wPend.nextRunAt = 1 ∧
      ([] ++ [wPend]).length = List.length ([] : List Job) + 1) ∧
    ((Enqueue wPend [wPend]).1.isSome = true ∧
      (Enqueue wPend [wPend]).2 = [wPend]) := by
  have hj : NewJobFromSpec (some { id := "p1", command := "c" }) "g" 3 1 =
      some wPend := by decide
  exact ⟨(Enqueue_spec { id := "p1", command := "c" } "g" 3 1 [] wPend hj).1 (by decide),
    (Enqueue_spec { id := "p1", command := "c" } "g" 3 1 [wPend] wPend hj).2 (by decide)⟩

/-! ### Claim C8 -/

/-- Claim C8 counterexample: the JSON spec with id "j1" and no command key
parses (Go unmarshals the missing key to the empty string), passes through
`NewJobFromSpec` without any validation and is inserted into the empty
store: the enqueue succeeds (error component none) and the store gains a
row with an empty command, so a spec lacking the required command field is
not rejected before state mutation. -/
theorem missing_command_accepted_cex :
    enqueueCmd (some { id := "j1", command := "" }) "gen" 3 0 [] =
      (none,
        [{ id := "j1", command := "", state := JobState.pending,
           attempts := 0, maxRetries := 3, createdAt := 0, updatedAt := 0,
           nextRunAt := 0 }]) ∧
    (enqueueCmd (some { id := "j1", command := "" }) "gen" 3 0 []).2 ≠
      ([] : List Job) := by
  exact ⟨by decide, by decide⟩

/-- Claim C8 (amended): a spec that fails to parse is rejected with an
error before any state mutation (the store component is returned exactly
as it was), but a spec that parses is never rejected by validation:
`NewJobFromSpec` always produces a job, even when the command field is
missing (empty). -/
theorem enqueueCmd_validation (generatedId : String) (maxR now : Int)
    (s : List Job) (p : JobSpec) :
    enqueueCmd none generatedId maxR now s = (some "invalid job spec", s) ∧
    (NewJobFromSpec (some p) generatedId maxR now).isSome = true := by
  exact ⟨rfl, rfl⟩

/-! ### Claim C9 -/

/-- Claim C9, code-bug evidence: `config set backoff-base` performs no
range or finiteness check, so the non-positive value -1 parses, is
accepted (error component none) and is saved into the configuration; a
failure handled under that base then produces a nextRunAt in the past
(now + (-1) second), exactly what the spec says configuration-time
rejection must prevent. -/
theorem configSet_accepts_nonpositive :
    configSetBackoffBase (some (-1)) defaultConfig =
      (none, { defaultConfig with backoffBase := -1 }) ∧
    (-1 : ℚ) ≤ 0 ∧
    (handleFailure (-1) 0 cexJob).nextRunAt < 0 := by
  refine ⟨rfl, by norm_num, ?_⟩
  rw [handleFailure_eq, if_neg (by decide)]
  show (0 : Int) + backoffDelay (-1) cexJob.attempts < 0
  have hp : powGo (-1) cexJob.attempts = -1 := by
    rw [show cexJob.attempts = 1 from rfl, powGo_ofNonneg _ _ (by norm_num)]
    show ((-1 : ℚ)) ^ (1 : ℕ) = -1
    norm_num
  rw [backoffDelay, hp, goTruncToInt, if_neg (by norm_num), timeSecond]
  have hceil : ⌈(-1 : ℚ)⌉ = -1 := by
    rw [show ((-1 : ℚ)) = ((-1 : ℤ) : ℚ) by norm_num, Int.ceil_intCast]
  rw [hceil]
  norm_num

/-! ### Reachable-store invariants (Claims C5 and C10) -/

lemma StoreInv_map (s : List Job) (f : Job → Job)
    (hid : ∀ x, (f x).id = x.id)
    (hinv : ∀ x ∈ s, JobInv x → JobInv (f x))
    (hnf : ∀ x ∈ s, x.state ≠ JobState.failed → (f x).state ≠ JobState.failed)
    (h : StoreInv s) : StoreInv (s.map f) := by
  obtain ⟨h1, h2, h3⟩ := h
  refine ⟨?_, ?_, ?_⟩
  · have hids : (s.map f).map Job.id = s.map Job.id := by
      rw [List.map_map]
      apply List.map_congr_left
      intro x _
      exact hid x
    rw [hids]
    exact h1
  · intro y hy
    obtain ⟨x, hx, rfl⟩ := List.mem_map.mp hy
    exact hinv x hx (h2 x hx)
  · intro y hy
    obtain ⟨x, hx, rfl⟩ := List.mem_map.mp hy
    exact hnf x hx (h3 x hx)

lemma handleFailure_id (base : ℚ) (now : Int) (j : Job) :
    (handleFailure base now j).id = j.id := by
  rw [handleFailure_eq]
  split <;> rfl

lemma Enqueue_ok_char (j : Job) (s s2 : List Job)
    (h : Enqueue j s = (none, s2)) :
    j.id ∉ s.map Job.id ∧ s2 = s ++ [j] := by
  rw [Enqueue] at h
  by_cases hc : (s.any fun x => x.id == j.id) = true
  · rw [if_pos hc] at h
    simp at h
  · rw [if_neg hc] at h
    have h2 := congrArg Prod.snd h
    simp at h2
    exact ⟨fun hmem => hc ((any_id_iff s j).mpr hmem), h2.symm⟩

lemma NewJobFromSpec_fields (p : JobSpec) (g : String) (maxR now : Int)
    (j : Job) (h : NewJobFromSpec (some p) g maxR now = some j) :
    j.state = JobState.pending ∧ j.attempts = 0 ∧ j.maxRetries = maxR := by
  rw [NewJobFromSpec] at h
  simp only [Option.some.injEq] at h
  rw [← h]
  exact ⟨rfl, rfl, rfl⟩

lemma dlqRetry_none_eq (now : Int) (id0 : String) (s : List Job)
    (h : GetJob id0 s = none) :
    dlqRetry now id0 s = (some "failed to get job", s) := by
  rw [dlqRetry, h]

lemma dlqRetry_some_eq (now : Int) (id0 : String) (s : List Job) (job : Job)
    (h : GetJob id0 s = some job) :
    dlqRetry now id0 s =
      (if (job.state != JobState.dead) = true
        then (some "job is not in the DLQ", s)
        else (none, UpdateJob now
          { job with state := JobState.pending, attempts := 0,
                     nextRunAt := now } s)) := by
  rw [dlqRetry, h]

lemma dlqRetry_ok_char (now : Int) (id0 : String) (s s2 : List Job)
    (h : dlqRetry now id0 s = (none, s2)) :
    ∃ job, GetJob id0 s = some job ∧ job.state = JobState.dead ∧
      s2 = UpdateJob now
        { job with state := JobState.pending, attempts := 0,
                   nextRunAt := now } s := by
  cases hg : GetJob id0 s with
  | none =>
    rw [dlqRetry_none_eq now id0 s hg] at h
    simp at h
  | some job =>
    rw [dlqRetry_some_eq now id0 s job hg] at h
    by_cases hd : (job.state != JobState.dead) = true
    · rw [if_pos hd] at h
      simp at h
    · rw [if_neg hd] at h
      have hdead : job.state = JobState.dead := by
        simpa using hd
      have h2 := congrArg Prod.snd h
      simp at h2
      exact ⟨job, rfl, hdead, h2.symm⟩

lemma UpdateJob_preserves (now : Int) (jnew : Job) (s : List Job)
    (h : StoreInv s) (j : Job) (hmem : j ∈ s) (hid : jnew.id = j.id)
    (hJ : JobInv { j with state := jnew.state, attempts := jnew.attempts,
                          updatedAt := now, nextRunAt := jnew.nextRunAt })
    (hnf : jnew.state ≠ JobState.failed) :
    StoreInv (UpdateJob now jnew s) := by
  obtain ⟨h1, h2, h3⟩ := h
  rw [UpdateJob]
  apply StoreInv_map s _ ?_ ?_ ?_ ⟨h1, h2, h3⟩
  · intro x
    show (if x.id == jnew.id then _ else x).id = x.id
    split <;> rfl
  · intro x hx hJx
    show JobInv (if x.id == jnew.id then _ else x)
    by_cases hc : (x.id == jnew.id) = true
    · have hxj : x = j :=
        id_injective_of_nodup s h1 x j hx hmem (by rw [← hid]; simpa using hc)
      subst hxj
      rw [if_pos hc]
      exact hJ
    · rw [if_neg hc]
      exact hJx
  · intro x hx hxf
    show (if x.id == jnew.id then _ else x).state ≠ JobState.failed
    by_cases hc : (x.id == jnew.id) = true
    · rw [if_pos hc]
      exact hnf
    · rw [if_neg hc]
      exact hxf

lemma claim_preserves (now : Int) (s : List Job) (h : StoreInv s) :
    StoreInv (FindAndLockJob now s).2 := by
  obtain ⟨h1, h2, h3⟩ := h
  cases hOpt : findEligible now s with
  | none =>
    have hF : FindAndLockJob now s = (none, s) := by
      rw [FindAndLockJob, hOpt]
    rw [hF]
    exact ⟨h1, h2, h3⟩
  | some jrow =>
    have hF : FindAndLockJob now s =
        (some { jrow with state := JobState.processing, updatedAt := now,
                          attempts := jrow.attempts + 1 },
         s.map (lockUpdate
           { jrow with state := JobState.processing, updatedAt := now,
                       attempts := jrow.attempts + 1 })) := by
      rw [FindAndLockJob, hOpt]
    rw [hF]
    obtain ⟨hmem, helig, _⟩ := findEligible_some now s jrow hOpt
    obtain ⟨hpend, _⟩ := (isEligible_iff now jrow).mp helig
    apply StoreInv_map s _ ?_ ?_ ?_ ⟨h1, h2, h3⟩
    · intro x
      exact lockUpdate_id _ x
    · intro x hx hJx
      show JobInv (lockUpdate _ x)
      unfold lockUpdate
      by_cases hc : (x.id ==
          ({ jrow with state := JobState.processing, updatedAt := now,
                       attempts := jrow.attempts + 1 } : Job).id) = true
      · have hxj : x = jrow :=
          id_injective_of_nodup s h1 x jrow hx hmem (by simpa using hc)
        subst hxj
        rw [if_pos hc]
        dsimp only
        intro hm
        have hlt : x.attempts < x.maxRetries := (h2 x hx hm).1 hpend
        constructor
        · intro hps
          simp at hps
        · intro _
          show x.attempts + 1 ≤ x.maxRetries
          omega
      · rw [if_neg hc]
        exact hJx
    · intro x hx hxf
      show (lockUpdate _ x).state ≠ JobState.failed
      unfold lockUpdate
      by_cases hc : (x.id ==
          ({ jrow with state := JobState.processing, updatedAt := now,
                       attempts := jrow.attempts + 1 } : Job).id) = true
      · rw [if_pos hc]
        dsimp only
        simp
      · rw [if_neg hc]
        exact hxf

lemma QueueStep_preserves (base : ℚ) (s s2 : List Job)
    (h : StoreInv s) (hst : QueueStep base s s2) : StoreInv s2 := by
  cases hst with
  | enqueue p g maxR now j s' s2' hjob henq =>
    obtain ⟨hfresh, hs2⟩ := Enqueue_ok_char j s _ henq
    obtain ⟨hjs, hja, _⟩ := NewJobFromSpec_fields p g maxR now j hjob
    obtain ⟨h1, h2, h3⟩ := h
    subst hs2
    refine ⟨?_, ?_, ?_⟩
    · rw [List.map_append]
      apply List.Nodup.append h1 (by simp)
      intro a ha hb
      have hab : a = j.id := by simpa using hb
      subst hab
      exact hfresh ha
    · intro x hx
      rcases List.mem_append.mp hx with hx1 | hx2
      · exact h2 x hx1
      · have hxj : x = j := by simpa using hx2
        subst hxj
        intro hm
        constructor
        · intro _
          omega
        · intro _
          omega
    · intro x hx
      rcases List.mem_append.mp hx with hx1 | hx2
      · exact h3 x hx1
      · have hxj : x = j := by simpa using hx2
        subst hxj
        rw [hjs]
        simp
  | claim now s' =>
    exact claim_preserves now s h
  | complete j now s' hmem hproc =>
    have hd : j.state ≠ JobState.dead := by
      rw [hproc]
      simp
    refine UpdateJob_preserves now { j with state := JobState.completed }
      s h j hmem rfl ?_ (by simp)
    dsimp only
    intro hm
    constructor
    · intro hps
      simp at hps
    · intro _
      exact (h.2.1 j hmem hm).2 hd
  | fail j now now2 s' hmem hproc =>
    refine UpdateJob_preserves now2 (handleFailure base now j)
      s h j hmem (handleFailure_id base now j) ?_ ?_
    · by_cases hmr : j.maxRetries ≤ j.attempts
      · rw [handleFailure_eq, if_pos hmr]
        dsimp only
        intro _
        constructor
        · intro hps
          simp at hps
        · intro hdn
          exact absurd rfl hdn
      · rw [handleFailure_eq, if_neg hmr]
        dsimp only
        intro _
        constructor
        · intro _
          show j.attempts < j.maxRetries
          omega
        · intro _
          show j.attempts ≤ j.maxRetries
          omega
    · by_cases hmr : j.maxRetries ≤ j.attempts
      · rw [handleFailure_eq, if_pos hmr]
        simp
      · rw [handleFailure_eq, if_neg hmr]
        simp
  | retry id0 now s' s2' hok =>
    obtain ⟨job, hget, hdead, hs2⟩ := dlqRetry_ok_char now id0 s _ hok
    have hmem : job ∈ s := List.mem_of_find?_eq_some hget
    subst hs2
    refine UpdateJob_preserves now
      { job with state := JobState.pending, attempts := 0, nextRunAt := now }
      s h job hmem rfl ?_ (by simp)
    dsimp only
    intro hm
    have hm2 : 1 ≤ job.maxRetries := hm
    constructor
    · intro _
      show (0 : Int) < job.maxRetries
      omega
    · intro _
      show (0 : Int) ≤ job.maxRetries
      omega

lemma QueueReachable_inv (base : ℚ) (s : List Job)
    (h : QueueReachable base s) : StoreInv s := by
  induction h with
  | refl => exact ⟨List.nodup_nil, by simp, by simp⟩
  | tail hab hbc ih => exact QueueStep_preserves base _ _ ih hbc

/-! ### Claim C5 -/

/-- Claim C5 (amended): in every store reachable from the empty store by
enqueues, claims, worker completion and failure updates and operator DLQ
retries, every job that was created with maxRetries >= 1 and is not dead
satisfies attempts <= maxRetries; and the failure handler sends a job
whose attempts have reached maxRetries to dead rather than rescheduling
it.  (For maxRetries = 0 the bound fails transiently: the claim itself
always increments attempts and moves the job to processing, never to
dead, so a claimed maxRetries = 0 job reaches attempts = 1 > 0.) -/
theorem attempts_le_maxRetries (base : ℚ) (s : List Job)
    (h : QueueReachable base s) :
    (∀ j ∈ s, 1 ≤ j.maxRetries → j.state ≠ JobState.dead →
      j.attempts ≤ j.maxRetries) ∧
    (∀ (j : Job) (now : Int), j.maxRetries ≤ j.attempts →
      handleFailure base now j = { j with state := JobState.dead }) := by
  obtain ⟨_, h2, _⟩ := QueueReachable_inv base s h
  constructor
  · intro j hj hm hd
    exact (h2 j hj hm).2 hd
  · intro j now hj
    rw [handleFailure_eq, if_pos hj]

/-- Witness for C5: a store reached by one enqueue satisfies the bound,
and the failure handler sends a job at its retry ceiling to dead. -/
theorem attempts_le_maxRetries_witness :
    wPend.attempts ≤ wPend.maxRetries ∧
    handleFailure 2 0 wJobDead = { wJobDead with state := JobState.dead } := by
  have hreach : QueueReachable 2 [wPend] :=
    Relation.ReflTransGen.single
      (QueueStep.enqueue { id := "p1", command := "c" } "g" 3 1 wPend [] [wPend]
        (by decide) (by decide))
  have h := attempts_le_maxRetries 2 [wPend] hreach
  exact ⟨h.1 wPend (by decide) (by decide) (by decide), h.2 wJobDead 0 (by decide)⟩

/-- Claim C5 counterexample: the configuration accepts maxRetries = 0, and
a job enqueued with maxRetries = 0 and then claimed is reachable, is in
state processing (not dead), and has attempts = 1 > maxRetries = 0; the
claim does not send it to dead instead of handing it out. -/
theorem attempts_invariant_cex :
    QueueReachable 2 [c5jobLocked] ∧ c5jobLocked ∈ [c5jobLocked] ∧
    c5jobLocked.state ≠ JobState.dead ∧
    c5jobLocked.maxRetries < c5jobLocked.attempts := by
  refine ⟨?_, by decide, by decide, by decide⟩
  have h1 : QueueStep 2 [] [c5job] :=
    QueueStep.enqueue { id := "z", command := "c" } "g" 0 5 c5job [] [c5job]
      (by decide) (by decide)
  have h2 : QueueStep 2 [c5job] [c5jobLocked] := by
    have hstep : QueueStep 2 [c5job] (FindAndLockJob 5 [c5job]).2 :=
      QueueStep.claim 5 [c5job]
    have he : (FindAndLockJob 5 [c5job]).2 = [c5jobLocked] := by decide
    rwa [he] at hstep
  exact Relation.ReflTransGen.tail (Relation.ReflTransGen.single h1) h2

/-! ### Claim C10 -/

/-- Claim C10: no reachable store contains a job in the failed state: the
failure handler only assigns failed to the in-memory record and overwrites
it with pending or dead before `UpdateJob` persists it, so listing the
failed state always returns the empty list. -/
theorem no_failed_persisted (base : ℚ) (s : List Job)
    (h : QueueReachable base s) :
    ListJobsByState JobState.failed s = [] := by
  obtain ⟨_, _, h3⟩ := QueueReachable_inv base s h
  rw [ListJobsByState]
  have hfil : s.filter (fun j => j.state == JobState.failed) = [] := by
    rw [List.filter_eq_nil_iff]
    intro x hx
    simpa using h3 x hx
  rw [hfil, List.mergeSort_nil]
  rfl

/-- Witness for C10: a store reached by enqueue, claim and a failing
execution (which kills the job at maxRetries = 1) lists no failed jobs. -/
theorem no_failed_persisted_witness :
    ListJobsByState JobState.failed [w10dead] = [] := by
  have h1 : QueueStep 2 [] [w10] :=
    QueueStep.enqueue { id := "w", command := "c" } "g" 1 5 w10 [] [w10]
      (by decide) (by decide)
  have h2 : QueueStep 2 [w10] [w10locked] := by
    have hstep : QueueStep 2 [w10] (FindAndLockJob 6 [w10]).2 :=
      QueueStep.claim 6 [w10]
    have he : (FindAndLockJob 6 [w10]).2 = [w10locked] := by decide
    rwa [he] at hstep
  have h3 : QueueStep 2 [w10locked] [w10dead] := by
    have hstep : QueueStep 2 [w10locked]
        (UpdateJob 7 (handleFailure 2 6 w10locked) [w10locked]) :=
      QueueStep.fail w10locked 6 7 [w10locked] (by decide) (by decide)
    have he : UpdateJob 7 (handleFailure 2 6 w10locked) [w10locked] =
        [w10dead] := by decide
    rwa [he] at hstep
  exact no_failed_persisted 2 [w10dead]
    (Relation.ReflTransGen.tail
      (Relation.ReflTransGen.tail (Relation.ReflTransGen.single h1) h2) h3)
